import Mathlib

/-!
Shallow embedding of the `mq2db` core (`src/mq2db/__init__.py`): the per-target
worker pipeline (`_Worker`), its statement synthesis (`__init__`), its buffer
flush (`flush`), its run loop (`run`), and the `CSVLoader` decoder plugin.

Modelling conventions:
* Python `dict` objects are insertion-ordered association lists
  `List (String × α)`; `d[k] = v` is `dictSet` (replace in place, or append),
  `d.update(e)` is `dictUpdate`, `d[k]` lookup is `dictGet`.
* Wall-clock times are `Nat` epoch seconds, so `int(now.timestamp())` is
  `Int.ofNat`.
* Database effects are abstracted by an environment `fails : FlushOp → Bool`
  saying which of the operations performed inside `_Worker.flush` raise; the
  flush model returns whether the call returned normally together with the
  buffer contents afterwards (the Python mutates `rows` in place).
* A raised exception that the code does not catch is an explicit error value.
-/

set_option maxHeartbeats 1000000

deriving instance DecidableEq for Except

namespace Mq2db

/-! ## Python dict as an insertion-ordered association list -/

/-- Python `d[k] = v`: replace the value of an existing key (keeping its
position) or append a new binding at the end. -/
def dictSet {α : Type} (d : List (String × α)) (k : String) (v : α) :
    List (String × α) :=
  if d.any (fun p => p.1 == k) then
    d.map (fun p => if p.1 == k then (k, v) else p)
  else
    d ++ [(k, v)]

/-- Python `d.update(e)`: set every binding of `e`, in order, into `d`. -/
def dictUpdate {α : Type} (d e : List (String × α)) : List (String × α) :=
  e.foldl (fun acc p => dictSet acc p.1 p.2) d

/-- Python `d[k]` / `d.get(k)`: first binding of the key. -/
def dictGet {α : Type} (d : List (String × α)) (k : String) : Option α :=
  (d.find? (fun p => p.1 == k)).map (fun p => p.2)

/-- Python `d.keys()` (with insertion order and, for a well-formed dict, no
duplicates). -/
def dictKeys {α : Type} (d : List (String × α)) : List String :=
  d.map (fun p => p.1)

/-! ## Values stored in records -/

/-- Scalar values a buffered record can hold: decoded field values, the
`None` backfill, the receive datetime, the integer epoch timestamp, and the
raw payload bytes. -/
inductive Value : Type where
  | nullVal : Value
  | strVal (s : String) : Value
  | timeVal (t : Nat) : Value
  | intVal (n : Int) : Value
  | rawVal (bytes : List Nat) : Value
deriving DecidableEq, Repr

/-- A record: one buffered row, a Python dict from column name to value. -/
abbrev Rec := List (String × Value)

/-! ## Worker configuration (the `database` section of one target's conf) -/

/-- The fields of `dbconf` consulted by `_Worker.__init__` and the shape data
(how many `init` statements and index statements are configured) consulted by
`_Worker.flush`.  `primaryKey = none` models the `primary_key` key being
absent from the configuration dict, so that `dbconf.get("primary_key", ...)`
falls back to its default. -/
structure Conf : Type where
  columnsTyped : List (String × String)
  autoDatetime : Bool
  autoTimestamp : Bool
  autoRaw : Bool
  primaryKey : Option (List String)
  uniqueCons : List (String × List String)
  insertPfx : String
  interval : Nat
  numInit : Nat
  numIndices : Nat

/-- `self._columns = list(dbconf.get("columns", {}).keys())`. -/
def Conf.columns (c : Conf) : List String := c.columnsTyped.map (fun p => p.1)

/-! ## Statement synthesis (`_Worker.__init__`) -/

/-- Python `sep.join(strs)`. -/
def joinSep (sep : String) : List String → String
  | [] => ""
  | [s] => s
  | s :: r :: rest => s ++ sep ++ joinSep sep (r :: rest)

/-- The single pre-joined element holding the user columns:
`",\n".join(f"  {key} {val}" for key, val in dbconf.get("columns", {}).items())`. -/
def userColumnsJoined (c : Conf) : String :=
  joinSep ",\n" (c.columnsTyped.map (fun p => "  " ++ p.1 ++ " " ++ p.2))

/-- `primary_key = dbconf.get("primary_key", ["_datetime_"] if self._auto_datetime else None)`. -/
def primaryKeyResolved (c : Conf) : Option (List String) :=
  match c.primaryKey with
  | some pk => some pk
  | none => if c.autoDatetime then some ["_datetime_"] else none

/-- The `columns_spec` list exactly as `_Worker.__init__` builds it: start from
the joined user columns, `insert(0, ...)` the datetime line, then `insert(0, ...)`
the timestamp line, then append the raw line, the primary-key clause and the
named unique constraints. -/
def columnsSpecList (c : Conf) : List String :=
  let l := [userColumnsJoined c]
  let l := if c.autoDatetime then "  _datetime_ DATETIME NOT NULL" :: l else l
  let l := if c.autoTimestamp then "  _timestamp_ INTEGER NOT NULL" :: l else l
  let l := l ++ (if c.autoRaw then ["  _raw_ BLOB NOT NULL"] else [])
  let l := l ++ (match primaryKeyResolved c with
    | some pk => ["  PRIMARY KEY(" ++ joinSep "," pk ++ ")"]
    | none => [])
  l ++ c.uniqueCons.map
    (fun p => "  CONSTRAINT " ++ p.1 ++ " UNIQUE(" ++ joinSep "," p.2 ++ ")")

/-- `self._sql_table`, the synthesized CREATE TABLE statement text. -/
def sqlTable (name : String) (c : Conf) : String :=
  "CREATE TABLE IF NOT EXISTS " ++ name ++ " (\n" ++
    joinSep ",\n" (columnsSpecList c) ++ ");"

/-- `insert_columns` exactly as the code builds it: a copy of the user columns,
then append `_datetime_`, then `_timestamp_`, then `_raw_` when enabled. -/
def insertColumns (c : Conf) : List String :=
  let l := c.columns
  let l := if c.autoDatetime then l ++ ["_datetime_"] else l
  let l := if c.autoTimestamp then l ++ ["_timestamp_"] else l
  if c.autoRaw then l ++ ["_raw_"] else l

/-- `self._sql_insert`, the synthesized INSERT statement text (the f-string
literal of the source, including its newlines and indentation). -/
def sqlInsert (name : String) (c : Conf) : String :=
  "\n            INSERT " ++ c.insertPfx ++ " INTO " ++ name ++ "(" ++
    joinSep ", " (insertColumns c) ++ ")\n            VALUES(" ++
    joinSep "," ((insertColumns c).map (fun col => ":" ++ col)) ++
    ")\n            "

/-! Claim-side and spec-side statement descriptions, for comparison with the
synthesized ones. -/

/-- Modelled from the claim's words: the insert column list as C4 states it —
user columns followed by the enabled auto-columns in the order `_timestamp_`,
`_datetime_`, `_raw_`. -/
def claimInsertColumns (c : Conf) : List String :=
  c.columns ++ (if c.autoTimestamp then ["_timestamp_"] else []) ++
    (if c.autoDatetime then ["_datetime_"] else []) ++
    (if c.autoRaw then ["_raw_"] else [])

/-- Modelled from the claim's words: the INSERT statement C4 describes, with
the claimed column order, one placeholder per column, and the configured
prefix injected verbatim after INSERT. -/
def claimSqlInsert (name : String) (c : Conf) : String :=
  "\n            INSERT " ++ c.insertPfx ++ " INTO " ++ name ++ "(" ++
    joinSep ", " (claimInsertColumns c) ++ ")\n            VALUES(" ++
    joinSep "," ((claimInsertColumns c).map (fun col => ":" ++ col)) ++
    ")\n            "

/-- The amended insert column order actually produced by the code: user
columns, then `_datetime_`, then `_timestamp_`, then `_raw_` (each when
enabled), written as one flat concatenation. -/
def amendedInsertColumns (c : Conf) : List String :=
  c.columns ++ (if c.autoDatetime then ["_datetime_"] else []) ++
    (if c.autoTimestamp then ["_timestamp_"] else []) ++
    (if c.autoRaw then ["_raw_"] else [])

/-- The INSERT statement described declaratively with the amended column
order, one placeholder per column, and the prefix verbatim after INSERT. -/
def amendedSqlInsert (name : String) (c : Conf) : String :=
  "\n            INSERT " ++ c.insertPfx ++ " INTO " ++ name ++ "(" ++
    joinSep ", " (amendedInsertColumns c) ++ ")\n            VALUES(" ++
    joinSep "," ((amendedInsertColumns c).map (fun col => ":" ++ col)) ++
    ")\n            "

/-- Modelled from the spec's words (C5): the CREATE TABLE body as a flat list
of per-column lines in the fixed order timestamp-integer, datetime, user
columns, raw-blob, followed by the primary-key clause when one is configured
(defaulting to `[_datetime_]` when `_datetime_` is enabled) and the named
unique constraints. -/
def specTableLines (c : Conf) : List String :=
  (if c.autoTimestamp then ["  _timestamp_ INTEGER NOT NULL"] else []) ++
    (if c.autoDatetime then ["  _datetime_ DATETIME NOT NULL"] else []) ++
    c.columnsTyped.map (fun p => "  " ++ p.1 ++ " " ++ p.2) ++
    (if c.autoRaw then ["  _raw_ BLOB NOT NULL"] else []) ++
    (match primaryKeyResolved c with
      | some pk => ["  PRIMARY KEY(" ++ joinSep "," pk ++ ")"]
      | none => []) ++
    c.uniqueCons.map
      (fun p => "  CONSTRAINT " ++ p.1 ++ " UNIQUE(" ++ joinSep "," p.2 ++ ")")

/-- The CREATE TABLE statement as the spec describes it, assembled from
`specTableLines`. -/
def specSqlTable (name : String) (c : Conf) : String :=
  "CREATE TABLE IF NOT EXISTS " ++ name ++ " (\n" ++
    joinSep ",\n" (specTableLines c) ++ ");"

/-! ## Record stamping and buffering (`_Worker.run`, lines 208–217) -/

/-- Processing of one decoded record `each` inside the receive loop: set the
enabled auto-columns on it (`each["_datetime_"] = now`, `each["_timestamp_"] =
int(now.timestamp())`, `each["_raw_"] = data`), build
`dict_repr = {key: None for key in self._columns}` and `dict_repr.update(each)`.
The result is the row appended to the buffer. -/
def stamp (c : Conf) (now : Nat) (data : Value) (each : Rec) : Rec :=
  let e1 := if c.autoDatetime then dictSet each "_datetime_" (Value.timeVal now) else each
  let e2 := if c.autoTimestamp then dictSet e1 "_timestamp_" (Value.intVal (Int.ofNat now)) else e1
  let e3 := if c.autoRaw then dictSet e2 "_raw_" data else e2
  dictUpdate (c.columns.map (fun k => (k, Value.nullVal))) e3

/-- All records of one received message, stamped with the single timestamp
`now` captured right after the receive. -/
def stampAll (c : Conf) (now : Nat) (data : Value) (recs : List Rec) : List Rec :=
  recs.map (stamp c now data)

/-- Modelled from the claim's words (C3): the table's configured column set —
user columns plus enabled auto-columns. -/
def configuredColumns (c : Conf) : List String :=
  c.columns ++ (if c.autoDatetime then ["_datetime_"] else []) ++
    (if c.autoTimestamp then ["_timestamp_"] else []) ++
    (if c.autoRaw then ["_raw_"] else [])

/-! ## Flush (`_Worker.flush`) -/

/-- The fallible operations `_Worker.flush` performs against the database, in
program order: opening the connection, each configured init statement, the
table statement, each index statement, the bulk insert, and the commit issued
when the `con.begin()` block exits. -/
inductive FlushOp : Type where
  | connect : FlushOp
  | initStmt (i : Nat) : FlushOp
  | tableStmt : FlushOp
  | indexStmt (i : Nat) : FlushOp
  | insertStmt : FlushOp
  | commit : FlushOp
deriving DecidableEq, Repr

/-- `_Worker.flush(now, rows)` under an environment telling which database
operations raise.  Returns `(returned normally?, rows afterwards)`.  Faithful
points: the empty buffer returns before any connection is made; an exception
from any statement propagates before `rows.clear()` runs, so the buffer is
untouched; `rows.clear()` is executed inside the `con.begin()` block, i.e.
before the commit that runs when that block exits, so a failing commit still
leaves the buffer cleared. -/
def flush (c : Conf) (fails : FlushOp → Bool) (rows : List Rec) :
    Bool × List Rec :=
  if rows.isEmpty then (true, rows)
  else if fails FlushOp.connect then (false, rows)
  else if (List.range c.numInit).any (fun i => fails (FlushOp.initStmt i)) then (false, rows)
  else if fails FlushOp.tableStmt then (false, rows)
  else if (List.range c.numIndices).any (fun i => fails (FlushOp.indexStmt i)) then (false, rows)
  else if fails FlushOp.insertStmt then (false, rows)
  else if fails FlushOp.commit then (false, [])
  else (true, [])

/-- All pre-commit database work of a flush succeeds. -/
def stmtsOk (c : Conf) (fails : FlushOp → Bool) : Bool :=
  !fails FlushOp.connect &&
    !(List.range c.numInit).any (fun i => fails (FlushOp.initStmt i)) &&
    !fails FlushOp.tableStmt &&
    !(List.range c.numIndices).any (fun i => fails (FlushOp.indexStmt i)) &&
    !fails FlushOp.insertStmt

/-! ## The run loop (`_Worker.run`) -/

/-- The mutable local state of `run`: `now`, `prev` and `rows`. -/
structure LoopState : Type where
  now : Nat
  prev : Nat
  rows : List Rec
deriving DecidableEq, Repr

/-- The environment of one loop iteration: whether the stop event is observed
set at the top of the iteration, the wall clock at the receive, what the
receive/decode produced (`none` = `zmq.Again` timeout; `some (Except.error ())`
= the loader raised; `some (Except.ok recs)` = the loader returned records,
a single mapping being the singleton list per the `isinstance` normalization),
the raw payload, and which database operations would fail if a flush runs. -/
structure IterInput : Type where
  stopSet : Bool
  time : Nat
  recv : Option (Except Unit (List Rec))
  rawData : Value
  flushFails : FlushOp → Bool

/-- One invocation of `self.flush` as observed in a run: whether it is the
final flush after the loop, the buffer passed to it, and the `now` used. -/
structure FlushCall : Type where
  isFinal : Bool
  rows : List Rec
  time : Nat
deriving DecidableEq, Repr

/-- Outcome of one loop-body execution: continue looping, or an uncaught
exception propagating out of `run`. -/
inductive StepRes : Type where
  | continued (s : LoopState) : StepRes
  | errored (s : LoopState) : StepRes
deriving DecidableEq, Repr

/-- The body of the `while` loop in `_Worker.run`, given its iteration
environment.  Faithful points: `zmq.Again` is caught and `continue`s to the
next iteration, skipping the flush check; any other exception (the loader
raising) is uncaught and propagates, after `now` was already advanced at line
204; on a decoded message the records are stamped with the one captured `now`
and appended, then the flush check runs; a failing flush is caught
(`traceback.print_exc()`) and leaves `prev` unchanged, a flush that returns
normally advances `prev` to `now`. -/
def step (c : Conf) (inp : IterInput) (s : LoopState) :
    StepRes × List FlushCall :=
  match inp.recv with
  | none => (StepRes.continued s, [])
  | some (Except.error _) => (StepRes.errored { s with now := inp.time }, [])
  | some (Except.ok recs) =>
    let now := inp.time
    let rows := s.rows ++ stampAll c now inp.rawData recs
    if c.interval < now - s.prev then
      let fr := flush c inp.flushFails rows
      if fr.1 then (StepRes.continued ⟨now, now, fr.2⟩, [⟨false, rows, now⟩])
      else (StepRes.continued ⟨now, s.prev, fr.2⟩, [⟨false, rows, now⟩])
    else
      (StepRes.continued ⟨now, s.prev, rows⟩, [])

/-- How a run ends: the stop event was observed and the final flush ran
(`stopped`), an uncaught exception killed the thread (`crashed`), or the
modelled trace ended while the loop was still running (`pending`). -/
inductive RunResult : Type where
  | stopped (finalOk : Bool) (buffer : List Rec) : RunResult
  | crashed (s : LoopState) : RunResult
  | pending (s : LoopState) : RunResult
deriving DecidableEq, Repr

/-- `_Worker.run` over a finite trace of iteration environments: the stop
event is checked at the top of each iteration; once observed set, the loop
exits and the single unconditional `self.flush(now, rows)` after the loop
runs.  Returns the result together with the log of every `self.flush`
invocation. -/
def runLoop (c : Conf) (s : LoopState) :
    List IterInput → RunResult × List FlushCall
  | [] => (RunResult.pending s, [])
  | inp :: rest =>
    if inp.stopSet then
      let fr := flush c inp.flushFails s.rows
      (RunResult.stopped fr.1 fr.2, [⟨true, s.rows, s.now⟩])
    else
      match step c inp s with
      | (StepRes.errored sE, log) => (RunResult.crashed sE, log)
      | (StepRes.continued sC, log) =>
        let r := runLoop c sC rest
        (r.1, log ++ r.2)

/-! ## CSVLoader (`CSVLoader.__call__` with an explicit header) -/

/-- ASCII whitespace stripped by Python `str.strip()` (the characters that
occur in the loader's inputs). -/
def isWs (ch : Char) : Bool :=
  ch = ' ' || ch = '\t' || ch = '\n' || ch = '\r'

/-- Drop leading whitespace characters. -/
def dropWs : List Char → List Char
  | [] => []
  | ch :: cs => if isWs ch then dropWs cs else ch :: cs

/-- Python `s.strip()`. -/
def pyStrip (s : String) : String :=
  String.mk ((dropWs (dropWs s.data).reverse).reverse)

/-- Split a list of characters into delimiter-separated fields. -/
def splitFields (sep : Char) : List Char → List (List Char)
  | [] => [[]]
  | ch :: rest =>
    match splitFields sep rest with
    | [] => [[]]
    | f :: fs => if ch = sep then [] :: f :: fs else (ch :: f) :: fs

/-- The fields the `csv` reader yields for one line of input (default comma
dialect; the loader's inputs contain no quoting): a blank line yields no
fields at all — `csv.reader` produces `[]` for it, and `csv.DictReader` skips
such rows — and any other line is split on the delimiter. -/
def csvRow (line : String) : List String :=
  if line = "" then [] else (splitFields ',' line.data).map String.mk

/-- The dict `csv.DictReader` builds for one non-blank row against explicit
`fieldnames`: header names zipped with the row's fields, then — when the row
is short — the remaining header names bound to the `restval` default `None`
(`(some name, none)`), then — when the row is long — the `restkey` entry whose
key is `None` (`(none, none)`; its value, the list of surplus fields, is
irrelevant because stripping the `None` key raises first). -/
def dictReaderRow (header fields : List String) :
    List (Option String × Option String) :=
  (header.zip fields).map (fun p => (some p.1, some p.2)) ++
    (header.drop fields.length).map (fun name => (some name, none)) ++
    (if header.length < fields.length then [(none, none)] else [])

/-- The loader's per-line loop body: `line_data[key.strip()] = value.strip()`
over the dict entries in order; stripping a `None` key or `None` value raises
`AttributeError`, modelled as `Except.error ()`. -/
def stripRowAux (acc : List (String × String)) :
    List (Option String × Option String) → Except Unit (List (String × String))
  | [] => Except.ok acc
  | (some k, some v) :: rest => stripRowAux (dictSet acc (pyStrip k) (pyStrip v)) rest
  | _ => Except.error ()

/-- The trimmed record built from one row's dict entries. -/
def stripRow (entries : List (Option String × Option String)) :
    Except Unit (List (String × String)) :=
  stripRowAux [] entries

/-- `CSVLoader.__call__` with an explicit header, on the decoded payload
already split into lines: iterate the `DictReader` rows in order (blank lines
yield no row), build each trimmed record, and append it to the result; the
first raised exception propagates, discarding the result. -/
def CSVLoader_call (header : List String) :
    List String → Except Unit (List (List (String × String)))
  | [] => Except.ok []
  | line :: rest =>
    match csvRow line with
    | [] => CSVLoader_call header rest
    | f :: fs => do
      let r ← stripRow (dictReaderRow header (f :: fs))
      let rs ← CSVLoader_call header rest
      pure (r :: rs)

/-- The whitespace-trimmed record of a row with exactly as many fields as the
header: zip, strip both sides, build the dict in order. -/
def stripOkRow (header fields : List String) : List (String × String) :=
  (header.zip fields).foldl
    (fun acc p => dictSet acc (pyStrip p.1) (pyStrip p.2)) []

/-! ## Concrete configurations and inputs used by witnesses and
counterexamples -/

/-- A configuration with one user column and both timestamp auto-columns
enabled (plus a named unique constraint, a prefix, and some init and index
statements). -/
def confA : Conf :=
  ⟨[("rssi", "REAL")], true, true, false, none,
    [("u1", ["rssi"])], "OR IGNORE", 1, 2, 1⟩

/-- A minimal configuration: one user column, no auto-columns, flush
interval 1, no init or index statements. -/
def confB : Conf := ⟨[("a", "TEXT")], false, false, false, none, [], "", 1, 0, 0⟩

/-- A database environment in which only the commit fails. -/
def failsCommit : FlushOp → Bool := fun op => op == FlushOp.commit

/-- A database environment in which nothing fails. -/
def failsNone : FlushOp → Bool := fun _ => false

/-- A concrete buffered row. -/
def rowA : Rec := [("a", Value.strVal "x")]

/-- An iteration in which the receive times out (`zmq.Again`). -/
def inpTimeout : IterInput := ⟨false, 9, none, Value.nullVal, failsNone⟩

/-- An iteration receiving a message whose loader returns no records. -/
def inpEmptyMsg : IterInput := ⟨false, 5, some (Except.ok []), Value.nullVal, failsNone⟩

/-- An iteration receiving a message on which the loader raises. -/
def inpLoaderRaise : IterInput := ⟨false, 3, some (Except.error ()), Value.nullVal, failsNone⟩

/-- An iteration receiving a message that decodes to one record. -/
def inpMsgA : IterInput :=
  ⟨false, 4, some (Except.ok [[("a", Value.strVal "z")]]), Value.nullVal, failsNone⟩

/-- An iteration at whose top the stop event is observed set. -/
def inpStop : IterInput := ⟨true, 7, none, Value.nullVal, failsNone⟩

/-- A loop state with one pending row and an elapsed flush interval. -/
def sPending : LoopState := ⟨5, 0, [rowA]⟩

/-- The initial loop state with an empty buffer. -/
def sEmpty : LoopState := ⟨0, 0, []⟩

/-! ## Shared helper lemmas -/

/-- Joining a concatenation of two non-empty lists inserts the separator in
the middle. -/
theorem joinSep_append (sep : String) (xs ys : List String)
    (hx : xs ≠ []) (hy : ys ≠ []) :
    joinSep sep (xs ++ ys) = joinSep sep xs ++ sep ++ joinSep sep ys := by
  induction xs with
  | nil => cases hx rfl
  | cons a xs ih =>
    cases xs with
    | nil =>
      cases ys with
      | nil => cases hy rfl
      | cons b ys => simp [joinSep]
    | cons a2 xs2 =>
      have h2 := ih (by simp)
      simp only [List.cons_append] at h2 ⊢
      rw [joinSep, joinSep, h2]
      simp [String.append_assoc]

/-- A pre-joined non-empty block inside a list to be joined can be flattened
into the list. -/
theorem joinSep_collapse (sep : String) (xs ys zs : List String)
    (hy : ys ≠ []) :
    joinSep sep (xs ++ [joinSep sep ys] ++ zs) =
      joinSep sep (xs ++ ys ++ zs) := by
  have base : joinSep sep ([joinSep sep ys] ++ zs) = joinSep sep (ys ++ zs) := by
    cases zs with
    | nil => simp [joinSep]
    | cons z zs =>
      rw [joinSep_append sep [joinSep sep ys] (z :: zs) (by simp) (by simp),
        joinSep_append sep ys (z :: zs) hy (by simp)]
      simp [joinSep]
  cases xs with
  | nil => simpa using base
  | cons x xs =>
    rw [List.append_assoc, List.append_assoc,
      joinSep_append sep (x :: xs) ([joinSep sep ys] ++ zs) (by simp) (by simp),
      joinSep_append sep (x :: xs) (ys ++ zs) (by simp)
        (by cases ys with | nil => cases hy rfl | cons y ys => simp),
      base]

/-- The `columns_spec` list, rewritten as one flat concatenation. -/
theorem columnsSpecList_flat (c : Conf) :
    columnsSpecList c =
      (if c.autoTimestamp then ["  _timestamp_ INTEGER NOT NULL"] else []) ++
        (if c.autoDatetime then ["  _datetime_ DATETIME NOT NULL"] else []) ++
        [userColumnsJoined c] ++
        (if c.autoRaw then ["  _raw_ BLOB NOT NULL"] else []) ++
        (match primaryKeyResolved c with
          | some pk => ["  PRIMARY KEY(" ++ joinSep "," pk ++ ")"]
          | none => []) ++
        c.uniqueCons.map
          (fun p => "  CONSTRAINT " ++ p.1 ++ " UNIQUE(" ++ joinSep "," p.2 ++ ")") := by
  unfold columnsSpecList
  cases c.autoTimestamp <;> cases c.autoDatetime <;> simp [List.append_assoc]

/-- The insert column list the code builds equals the flat amended order. -/
theorem insertColumns_flat (c : Conf) :
    insertColumns c = amendedInsertColumns c := by
  unfold insertColumns amendedInsertColumns
  cases c.autoDatetime <;> cases c.autoTimestamp <;> cases c.autoRaw <;>
    simp [List.append_assoc]

/-- Setting a key makes it retrievable with the set value. -/
theorem dictGet_dictSet_self {α : Type} (d : List (String × α)) (k : String)
    (v : α) : dictGet (dictSet d k v) k = some v := by
  unfold dictSet dictGet
  by_cases hany : (d.any fun p => p.1 == k) = true
  · rw [if_pos hany, List.find?_map]
    have hcomp : ((fun p : String × α => p.1 == k) ∘
        (fun p => if p.1 == k then (k, v) else p)) =
        (fun p : String × α => p.1 == k) := by
      funext p
      by_cases hpk : (p.1 == k) = true
      · simp [Function.comp, hpk]
      · simp [Function.comp, hpk]
    rw [hcomp]
    rcases List.any_eq_true.mp hany with ⟨q, hq, hqk⟩
    have hsome : (d.find? fun p => p.1 == k).isSome := by
      rw [List.find?_isSome]
      exact ⟨q, hq, hqk⟩
    rcases Option.isSome_iff_exists.mp hsome with ⟨r, hr⟩
    have hrk := List.find?_some hr
    rw [hr]
    simp [eq_of_beq hrk]
  · rw [if_neg hany, List.find?_append]
    have hnone : d.find? (fun p => p.1 == k) = none := by
      rw [List.find?_eq_none]
      intro p hp hpk
      exact hany (List.any_eq_true.mpr ⟨p, hp, hpk⟩)
    simp [hnone, List.find?]

/-- Setting one key leaves lookups of any other key unchanged. -/
theorem dictGet_dictSet_ne {α : Type} (d : List (String × α)) (k kOther : String)
    (v : α) (hne : kOther ≠ k) :
    dictGet (dictSet d k v) kOther = dictGet d kOther := by
  unfold dictSet dictGet
  by_cases hany : (d.any fun p => p.1 == k) = true
  · rw [if_pos hany, List.find?_map]
    have hcomp : ((fun p : String × α => p.1 == kOther) ∘
        (fun p => if p.1 == k then (k, v) else p)) =
        (fun p : String × α => p.1 == kOther) := by
      funext p
      by_cases hpk : (p.1 == k) = true
      · have h1 : (k == kOther) = false := by
          simp [beq_iff_eq]
          exact fun h => hne h.symm
        have h2 : (p.1 == kOther) = false := by rw [eq_of_beq hpk]; exact h1
        simp [Function.comp, hpk, h1, h2]
      · simp [Function.comp, hpk]
    rw [hcomp]
    cases hfd : d.find? (fun p => p.1 == kOther) with
    | none => simp
    | some r =>
      have hrk := List.find?_some hfd
      have hrne : r.1 ≠ k := by
        rw [eq_of_beq hrk]
        exact hne
      simp [hrne]
  · rw [if_neg hany, List.find?_append]
    have h1 : (((k, v) : String × α).1 == kOther) = false := by
      simp [beq_iff_eq]
      exact fun h => hne h.symm
    cases hfd : d.find? (fun p => p.1 == kOther) <;>
      simp [List.find?, h1]

/-- After setting a key, every binding of that key carries the set value. -/
theorem mem_dictSet_same_val {α : Type} {d : List (String × α)} {k : String}
    {v : α} : ∀ p ∈ dictSet d k v, p.1 = k → p.2 = v := by
  intro p hp hpk
  unfold dictSet at hp
  by_cases hany : (d.any fun q => q.1 == k) = true
  · rw [if_pos hany] at hp
    rcases List.mem_map.mp hp with ⟨q, hq, hfq⟩
    by_cases hqk : (q.1 == k) = true
    · rw [if_pos hqk] at hfq
      rw [← hfq]
    · rw [if_neg hqk] at hfq
      subst hfq
      exact absurd (beq_iff_eq.mpr hpk) hqk
  · rw [if_neg hany] at hp
    rcases List.mem_append.mp hp with hp1 | hp2
    · exact absurd (show (d.any fun q => q.1 == k) = true from
        List.any_eq_true.mpr ⟨p, hp1, beq_iff_eq.mpr hpk⟩) hany
    · rw [List.mem_singleton] at hp2
      subst hp2
      rfl

/-- After setting a key, some binding of that key exists. -/
theorem exists_key_dictSet {α : Type} (d : List (String × α)) (k : String)
    (v : α) : ∃ p ∈ dictSet d k v, p.1 = k := by
  unfold dictSet
  by_cases hany : (d.any fun q => q.1 == k) = true
  · rw [if_pos hany]
    rcases List.any_eq_true.mp hany with ⟨p, hp, hpk⟩
    exact ⟨(k, v), List.mem_map.mpr ⟨p, hp, by rw [if_pos hpk]⟩, rfl⟩
  · rw [if_neg hany]
    exact ⟨(k, v), List.mem_append.mpr (Or.inr (List.mem_singleton.mpr rfl)), rfl⟩

/-- Setting a different key preserves "every binding of this key carries this
value". -/
theorem mem_dictSet_preserve {α : Type} {d : List (String × α)}
    {k kOther : String} {v w : α} (hne : kOther ≠ k)
    (hall : ∀ p ∈ d, p.1 = kOther → p.2 = w) :
    ∀ p ∈ dictSet d k v, p.1 = kOther → p.2 = w := by
  intro p hp hpk
  unfold dictSet at hp
  by_cases hany : (d.any fun q => q.1 == k) = true
  · rw [if_pos hany] at hp
    rcases List.mem_map.mp hp with ⟨q, hq, hfq⟩
    by_cases hqk : (q.1 == k) = true
    · rw [if_pos hqk] at hfq
      subst hfq
      have hk : k = kOther := hpk
      exact absurd hk.symm hne
    · rw [if_neg hqk] at hfq
      subst hfq
      exact hall q hq hpk
  · rw [if_neg hany] at hp
    rcases List.mem_append.mp hp with hp1 | hp2
    · exact hall p hp1 hpk
    · rw [List.mem_singleton] at hp2
      subst hp2
      have hk : k = kOther := hpk
      exact absurd hk.symm hne

/-- Setting a key preserves the existence of a binding of any present key. -/
theorem exists_key_dictSet_preserve {α : Type} {d : List (String × α)}
    {k kOther : String} {v : α} (hex : ∃ p ∈ d, p.1 = kOther) :
    ∃ p ∈ dictSet d k v, p.1 = kOther := by
  rcases hex with ⟨p, hp, hpk⟩
  unfold dictSet
  by_cases hany : (d.any fun q => q.1 == k) = true
  · rw [if_pos hany]
    by_cases hpkk : (p.1 == k) = true
    · refine ⟨(k, v), List.mem_map.mpr ⟨p, hp, by rw [if_pos hpkk]⟩, ?_⟩
      rw [← hpk]
      exact (eq_of_beq hpkk).symm
    · exact ⟨p, List.mem_map.mpr ⟨p, hp, by rw [if_neg hpkk]⟩, hpk⟩
  · rw [if_neg hany]
    exact ⟨p, List.mem_append.mpr (Or.inl hp), hpk⟩

/-- Lookup after a dict update: if every binding of the key in the update list
carries value `v`, and either the update list binds the key or the base dict
already yields `v`, then the updated dict yields `v`. -/
theorem dictGet_dictUpdate {α : Type} {k : String} {v : α} :
    ∀ (e d : List (String × α)),
      (∀ p ∈ e, p.1 = k → p.2 = v) →
      ((∃ p ∈ e, p.1 = k) ∨ dictGet d k = some v) →
      dictGet (dictUpdate d e) k = some v := by
  intro e
  induction e with
  | nil =>
    intro d _ hex
    rcases hex with ⟨p, hp, _⟩ | hget
    · cases hp
    · exact hget
  | cons q rest ih =>
    intro d hall hex
    show dictGet (dictUpdate (dictSet d q.1 q.2) rest) k = some v
    by_cases hqk : q.1 = k
    · refine ih (dictSet d q.1 q.2) (fun p hp hpk => hall p (List.mem_cons.mpr (Or.inr hp)) hpk) (Or.inr ?_)
      have hqv : q.2 = v := hall q (List.mem_cons.mpr (Or.inl rfl)) hqk
      rw [hqk, hqv]
      exact dictGet_dictSet_self d k v
    · refine ih (dictSet d q.1 q.2) (fun p hp hpk => hall p (List.mem_cons.mpr (Or.inr hp)) hpk) ?_
      rcases hex with ⟨p, hp, hpk⟩ | hget
      · rcases List.mem_cons.mp hp with rfl | hp2
        · exact absurd hpk hqk
        · exact Or.inl ⟨p, hp2, hpk⟩
      · refine Or.inr ?_
        rw [dictGet_dictSet_ne d q.1 k q.2 (fun h => hqk h.symm)]
        exact hget

/-- Key membership after a set: the old keys plus the set key. -/
theorem dictKeys_dictSet_mem {α : Type} (d : List (String × α)) (k : String)
    (v : α) (kq : String) :
    kq ∈ dictKeys (dictSet d k v) ↔ kq ∈ dictKeys d ∨ kq = k := by
  unfold dictSet dictKeys
  split
  · case isTrue hany =>
    rw [List.any_eq_true] at hany
    rcases hany with ⟨p, hp, hpk⟩
    have hmap : (d.map (fun p => if p.1 == k then (k, v) else p)).map
        (fun p => p.1) = d.map (fun p => p.1) := by
      rw [List.map_map]
      refine List.map_congr_left (fun q hq => ?_)
      by_cases hqk : (q.1 == k) = true
      · simp only [Function.comp, hqk, if_true]
        exact (eq_of_beq hqk).symm
      · have hqf : (q.1 == k) = false := by simpa using hqk
        simp [Function.comp, hqf]
    rw [hmap]
    constructor
    · exact Or.inl
    · rintro (h | rfl)
      · exact h
      · exact List.mem_map.mpr ⟨p, hp, eq_of_beq hpk⟩
  · simp

/-- Every flush invocation logged by a loop-body step is an interval flush,
never the final one. -/
theorem step_log_not_final (c : Conf) (inp : IterInput) (s : LoopState) :
    ∀ call ∈ (step c inp s).2, call.isFinal = false := by
  unfold step
  cases inp.recv with
  | none => intro call h; cases h
  | some r =>
    cases r with
    | error e => intro call h; cases h
    | ok recs =>
      simp only []
      split
      · split <;>
          (intro call h; rw [List.mem_singleton] at h; subst h; rfl)
      · intro call h; cases h

/-- Key membership after a dict update: the base keys plus the update keys. -/
theorem dictKeys_dictUpdate_mem {α : Type} :
    ∀ (e d : List (String × α)) (kq : String),
      kq ∈ dictKeys (dictUpdate d e) ↔ kq ∈ dictKeys d ∨ kq ∈ dictKeys e := by
  intro e
  induction e with
  | nil => intro d kq; simp [dictUpdate, dictKeys]
  | cons q rest ih =>
    intro d kq
    show kq ∈ dictKeys (dictUpdate (dictSet d q.1 q.2) rest) ↔ _
    rw [ih]
    rw [dictKeys_dictSet_mem]
    show _ ↔ kq ∈ dictKeys d ∨ kq ∈ q.1 :: dictKeys rest
    simp only [List.mem_cons]
    tauto

end Mq2db

namespace Mq2db

/-! ## Claim C4 -/

/-- C4, counterexample: with `_datetime_` and `_timestamp_` both enabled, the
synthesized INSERT statement does not list the auto-columns in the claimed
order (timestamp-integer first, then datetime): the code appends `_datetime_`
before `_timestamp_`. -/
theorem c4_counterexample :
    sqlInsert "t" confA ≠ claimSqlInsert "t" confA := by decide

/-- C4, amended: the synthesized insert statement's column list is the
user-configured columns followed by the enabled auto-columns in the order
`_datetime_`, then `_timestamp_`, then `_raw_`, with one placeholder per
column and the configured prefix injected verbatim after INSERT. -/
theorem c4_amended (name : String) (c : Conf) :
    sqlInsert name c = amendedSqlInsert name c := by
  unfold sqlInsert amendedSqlInsert
  rw [insertColumns_flat]

/-! ## Claim C5 -/

/-- C5: for every configuration with at least one user column, the
synthesized CREATE TABLE statement lists columns in the fixed order
`_timestamp_` (if enabled), `_datetime_` (if enabled), user columns, `_raw_`
(if enabled); it appends a PRIMARY KEY clause exactly when a primary key is
configured, defaulting to `[_datetime_]` when `_datetime_` is enabled and no
explicit key is given (and no PRIMARY KEY clause otherwise); and it appends
one named UNIQUE constraint per configured unique entry. -/
theorem c5_create_table (name : String) (c : Conf)
    (h : c.columnsTyped ≠ []) :
    sqlTable name c = specSqlTable name c := by
  unfold sqlTable specSqlTable
  rw [columnsSpecList_flat]
  unfold specTableLines userColumnsJoined
  rw [show ∀ a b d e f : List String,
      a ++ b ++ [joinSep ",\n" (c.columnsTyped.map
        (fun p => "  " ++ p.1 ++ " " ++ p.2))] ++ d ++ e ++ f =
      (a ++ b) ++ [joinSep ",\n" (c.columnsTyped.map
        (fun p => "  " ++ p.1 ++ " " ++ p.2))] ++ (d ++ e ++ f) from by
    intro a b d e f; simp [List.append_assoc]]
  rw [joinSep_collapse ",\n" _ _ _ (by simpa using h)]
  simp [List.append_assoc]

/-- C5, witness at the configuration `confA`. -/
theorem c5_create_table_witness :
    confA.columnsTyped ≠ [] ∧ sqlTable "t" confA = specSqlTable "t" confA :=
  ⟨by decide, c5_create_table "t" confA (by decide)⟩

/-! ## Claim C3 -/

/-- C3, counterexample: with user column set `{a}` and no auto-columns, a
decoded record carrying an extra field `b` is appended with `b` still among
its keys — `dict_repr.update(each)` keeps unknown decoded fields instead of
dropping them. -/
theorem c3_counterexample :
    "b" ∈ dictKeys (stamp confB 0 Value.nullVal
      [("a", Value.strVal "x"), ("b", Value.strVal "y")]) ∧
    "b" ∉ configuredColumns confB := by decide

/-- C3, amended: the key set of every record appended to the buffer is the
configured user columns (backfilled with null when missing) together with the
decoded record's own keys — unknown decoded fields are retained, not dropped
and not cause for rejection — plus the enabled auto-columns. -/
theorem c3_amended (c : Conf) (now : Nat) (data : Value) (each : Rec)
    (k : String) :
    k ∈ dictKeys (stamp c now data each) ↔
      (k ∈ c.columns ∨ k ∈ dictKeys each ∨
        (c.autoDatetime = true ∧ k = "_datetime_") ∨
        (c.autoTimestamp = true ∧ k = "_timestamp_") ∨
        (c.autoRaw = true ∧ k = "_raw_")) := by
  unfold stamp
  rw [dictKeys_dictUpdate_mem]
  have hbase : k ∈ dictKeys (c.columns.map (fun key => (key, Value.nullVal))) ↔
      k ∈ c.columns := by
    unfold dictKeys
    rw [List.map_map]
    simp [Function.comp]
  rw [hbase]
  cases hdt : c.autoDatetime <;> cases hts : c.autoTimestamp <;>
    cases hraw : c.autoRaw <;>
    simp [dictKeys_dictSet_mem] <;> tauto

/-! ## Claim C8 -/

/-- C8: with both timestamp auto-columns enabled, every record produced from
one received message is stamped with the one timestamp captured right after
the receive: `_datetime_` holds that datetime and `_timestamp_` its integer
epoch seconds, identically across all records of the message. -/
theorem c8_auto_columns (c : Conf) (now : Nat) (data : Value)
    (recs : List Rec) (r : Rec)
    (hdt : c.autoDatetime = true) (hts : c.autoTimestamp = true)
    (hr : r ∈ stampAll c now data recs) :
    dictGet r "_datetime_" = some (Value.timeVal now) ∧
    dictGet r "_timestamp_" = some (Value.intVal (Int.ofNat now)) := by
  rcases List.mem_map.mp hr with ⟨each, _, rfl⟩
  unfold stamp
  rw [hdt, hts]
  simp only [if_true]
  set e1 := dictSet each "_datetime_" (Value.timeVal now) with he1
  set e2 := dictSet e1 "_timestamp_" (Value.intVal (Int.ofNat now)) with he2
  have hdtne : "_datetime_" ≠ "_timestamp_" := by decide
  have hdtraw : "_datetime_" ≠ "_raw_" := by decide
  have htsraw : "_timestamp_" ≠ "_raw_" := by decide
  have hall1 : ∀ p ∈ e1, p.1 = "_datetime_" → p.2 = Value.timeVal now :=
    mem_dictSet_same_val
  have hall2 : ∀ p ∈ e2, p.1 = "_datetime_" → p.2 = Value.timeVal now :=
    mem_dictSet_preserve hdtne hall1
  have hex1 : ∃ p ∈ e1, p.1 = "_datetime_" := exists_key_dictSet each _ _
  have hex2 : ∃ p ∈ e2, p.1 = "_datetime_" := exists_key_dictSet_preserve hex1
  have hallT : ∀ p ∈ e2, p.1 = "_timestamp_" →
      p.2 = Value.intVal (Int.ofNat now) := mem_dictSet_same_val
  have hexT : ∃ p ∈ e2, p.1 = "_timestamp_" := exists_key_dictSet e1 _ _
  refine ⟨?_, ?_⟩ <;> split
  · exact dictGet_dictUpdate (dictSet e2 "_raw_" data) _
      (mem_dictSet_preserve hdtraw hall2)
      (Or.inl (exists_key_dictSet_preserve hex2))
  · exact dictGet_dictUpdate e2 _ hall2 (Or.inl hex2)
  · exact dictGet_dictUpdate (dictSet e2 "_raw_" data) _
      (mem_dictSet_preserve htsraw hallT)
      (Or.inl (exists_key_dictSet_preserve hexT))
  · exact dictGet_dictUpdate e2 _ hallT (Or.inl hexT)

/-- C8, witness: the record decoded from a message at time 5 under `confA`
carries `_datetime_ = 5` and `_timestamp_ = 5`. -/
theorem c8_auto_columns_witness :
    dictGet (stamp confA 5 Value.nullVal [("rssi", Value.strVal "1")])
        "_datetime_" = some (Value.timeVal 5) ∧
      dictGet (stamp confA 5 Value.nullVal [("rssi", Value.strVal "1")])
        "_timestamp_" = some (Value.intVal (Int.ofNat 5)) :=
  c8_auto_columns confA 5 Value.nullVal [[("rssi", Value.strVal "1")]]
    (stamp confA 5 Value.nullVal [("rssi", Value.strVal "1")]) rfl rfl
    (by decide)

/-! ## Claim C1 -/

/-- C1, counterexample: a flush of a non-empty buffer in which only the
commit fails reports failure to the caller, yet the buffer is empty
afterwards — `rows.clear()` runs inside the transaction block, before the
commit. -/
theorem c1_counterexample :
    (flush confB failsCommit [rowA]).1 = false ∧
    (flush confB failsCommit [rowA]).2 ≠ [rowA] := by decide

/-- C1, amended: for every flush invocation with a non-empty buffer, if the
connection or any statement execution fails the buffer still contains exactly
the records that were pending; the buffer is cleared as soon as the bulk
insert succeeds — before the commit — so the flush reports success exactly
when all statements and also the commit succeed, but a failure of the commit
alone still leaves the buffer cleared. -/
theorem c1_amended (c : Conf) (fails : FlushOp → Bool) (rows : List Rec)
    (h : rows ≠ []) :
    (flush c fails rows).2 = (if stmtsOk c fails then [] else rows) ∧
    ((flush c fails rows).1 = true ↔
      (stmtsOk c fails = true ∧ fails FlushOp.commit = false)) := by
  have hie : rows.isEmpty = false := by
    cases rows with
    | nil => cases h rfl
    | cons a l => rfl
  cases h1 : fails FlushOp.connect <;>
    cases h2 : (List.range c.numInit).any (fun i => fails (FlushOp.initStmt i)) <;>
    cases h3 : fails FlushOp.tableStmt <;>
    cases h4 : (List.range c.numIndices).any (fun i => fails (FlushOp.indexStmt i)) <;>
    cases h5 : fails FlushOp.insertStmt <;>
    cases h6 : fails FlushOp.commit <;>
    simp [flush, stmtsOk, hie, h1, h2, h3, h4, h5, h6]

/-- C1, witness: a fully successful flush of one pending row clears the
buffer and reports success. -/
theorem c1_amended_witness :
    (flush confB failsNone [rowA]).2 =
      (if stmtsOk confB failsNone then [] else [rowA]) ∧
    ((flush confB failsNone [rowA]).1 = true ↔
      (stmtsOk confB failsNone = true ∧ failsNone FlushOp.commit = false)) :=
  c1_amended confB failsNone [rowA] (by decide)

/-! ## Claim C2 -/

/-- C2, counterexample: an iteration whose receive times out leaves the state
unchanged and performs no flush invocation at all, even though the flush
interval has elapsed and the buffer is non-empty — the `except zmq.Again:
continue` skips the flush check. -/
theorem c2_counterexample :
    confB.interval < sPending.now - sPending.prev ∧ sPending.rows ≠ [] ∧
    step confB inpTimeout sPending = (StepRes.continued sPending, []) := by
  decide

/-- C2, amended: a receive timeout is not an error — the loop body returns
normally — but the iteration skips the flush check entirely, continuing to
the next iteration with the state unchanged; a flush is invoked only on an
iteration that received and decoded a message and whose interval had
elapsed. -/
theorem c2_amended :
    (∀ (c : Conf) (inp : IterInput) (s : LoopState), inp.recv = none →
      step c inp s = (StepRes.continued s, [])) ∧
    (∀ (c : Conf) (inp : IterInput) (s : LoopState), (step c inp s).2 ≠ [] →
      ∃ recs, inp.recv = some (Except.ok recs) ∧
        c.interval < inp.time - s.prev) := by
  constructor
  · intro c inp s h
    unfold step
    rw [h]
  · intro c inp s h
    unfold step at h
    cases hrecv : inp.recv with
    | none => rw [hrecv] at h; simp at h
    | some r =>
      cases r with
      | error e => rw [hrecv] at h; simp at h
      | ok recs =>
        rw [hrecv] at h
        refine ⟨recs, rfl, ?_⟩
        by_cases hint : c.interval < inp.time - s.prev
        · exact hint
        · exfalso
          apply h
          simp only [if_neg hint]

/-- C2, witness: the timeout branch at a concrete state. -/
theorem c2_amended_witness :
    step confB inpTimeout sPending = (StepRes.continued sPending, []) :=
  c2_amended.1 confB inpTimeout sPending rfl

/-! ## Claim C6 -/

/-- C6, counterexample: an iteration whose loader returns no records, with
the interval elapsed and the buffer empty, still invokes `self.flush` (a
no-op that touches no database) and advances `prev` from 0 to 5 — so `prev`
advances without any flush attempt in the spec's sense (non-empty write), and
under the other reading a flush is invoked with an empty buffer. -/
theorem c6_counterexample :
    confB.interval < inpEmptyMsg.time - sEmpty.prev ∧ sEmpty.rows = [] ∧
    step confB inpEmptyMsg sEmpty =
      (StepRes.continued ⟨5, 5, []⟩, [⟨false, [], 5⟩]) ∧
    flush confB inpEmptyMsg.flushFails [] = (true, []) := by decide

/-- C6, amended: on a message iteration, if the interval has elapsed the
flush is invoked on the whole buffer (even an empty one, for which it is a
no-op success) and `prev` advances to `now` exactly when that invocation
returns without raising, staying unchanged when it raises; if the interval
has not elapsed, no flush is invoked and `prev` is unchanged. -/
theorem c6_amended (c : Conf) (inp : IterInput) (s : LoopState)
    (recs : List Rec) (hrecv : inp.recv = some (Except.ok recs)) :
    (c.interval < inp.time - s.prev →
      step c inp s =
        (StepRes.continued
          ⟨inp.time,
            (if (flush c inp.flushFails
                (s.rows ++ stampAll c inp.time inp.rawData recs)).1
              then inp.time else s.prev),
            (flush c inp.flushFails
              (s.rows ++ stampAll c inp.time inp.rawData recs)).2⟩,
          [⟨false, s.rows ++ stampAll c inp.time inp.rawData recs, inp.time⟩])) ∧
    (¬ c.interval < inp.time - s.prev →
      step c inp s =
        (StepRes.continued
          ⟨inp.time, s.prev, s.rows ++ stampAll c inp.time inp.rawData recs⟩,
          [])) := by
  unfold step
  rw [hrecv]
  constructor
  · intro hint
    simp only [if_pos hint]
    cases hfr : (flush c inp.flushFails
        (s.rows ++ stampAll c inp.time inp.rawData recs)).1 <;>
      simp [hfr]
  · intro hint
    simp only [if_neg hint]

/-- C6, witness: the elapsed-interval branch at the empty-loader iteration. -/
theorem c6_amended_witness :
    step confB inpEmptyMsg sEmpty =
      (StepRes.continued
        ⟨inpEmptyMsg.time,
          (if (flush confB inpEmptyMsg.flushFails
              (sEmpty.rows ++ stampAll confB inpEmptyMsg.time
                inpEmptyMsg.rawData [])).1
            then inpEmptyMsg.time else sEmpty.prev),
          (flush confB inpEmptyMsg.flushFails
            (sEmpty.rows ++ stampAll confB inpEmptyMsg.time
              inpEmptyMsg.rawData [])).2⟩,
        [⟨false,
          sEmpty.rows ++ stampAll confB inpEmptyMsg.time inpEmptyMsg.rawData [],
          inpEmptyMsg.time⟩]) :=
  (c6_amended confB inpEmptyMsg sEmpty [] rfl).1 (by decide)

/-! ## Claim C7 -/

/-- C7, counterexample: when the loader raises on a received payload, the run
loop terminates with an uncaught exception — leaving a later well-formed
message unprocessed and performing no flush — instead of discarding the
message and keeping running. -/
theorem c7_counterexample :
    runLoop confB sEmpty [inpLoaderRaise, inpMsgA] =
      (RunResult.crashed ⟨3, 0, []⟩, []) := by decide

/-- C7, amended: a loader exception is not caught — only the receive-timeout
exception is — so it propagates out of `run` and terminates the pipeline on
the spot: the remaining trace is never consumed, no flush (not even the final
one) is invoked, and the buffer keeps exactly the rows it had. -/
theorem c7_amended (c : Conf) (s : LoopState) (inp : IterInput)
    (rest : List IterInput) (hstop : inp.stopSet = false)
    (hrecv : inp.recv = some (Except.error ())) :
    runLoop c s (inp :: rest) =
      (RunResult.crashed { s with now := inp.time }, []) := by
  unfold runLoop
  rw [if_neg (by simp [hstop])]
  unfold step
  rw [hrecv]

/-- C7, witness: the loader-raise iteration from the initial state. -/
theorem c7_amended_witness :
    runLoop confB sEmpty [inpLoaderRaise] =
      (RunResult.crashed ⟨3, 0, []⟩, []) :=
  c7_amended confB sEmpty inpLoaderRaise [] rfl rfl

/-! ## Claim C9 -/

/-- C9: when the stop event is observed at the top of an iteration, the loop
exits at once (the rest of the trace is not consumed) and the pipeline
performs exactly one final flush, of the entire remaining buffer, with no
interval condition attached; and along any run that ends in `stopped`,
exactly one final flush invocation appears in the log. -/
theorem c9_final_flush :
    (∀ (c : Conf) (s : LoopState) (inp : IterInput) (rest : List IterInput),
      inp.stopSet = true →
      runLoop c s (inp :: rest) =
        (RunResult.stopped (flush c inp.flushFails s.rows).1
          (flush c inp.flushFails s.rows).2,
         [⟨true, s.rows, s.now⟩])) ∧
    (∀ (c : Conf) (s : LoopState) (inputs : List IterInput)
      (ok : Bool) (buf : List Rec),
      (runLoop c s inputs).1 = RunResult.stopped ok buf →
      ((runLoop c s inputs).2.filter (fun call => call.isFinal)).length = 1) := by
  constructor
  · intro c s inp rest h
    unfold runLoop
    rw [if_pos h]
  · intro c s inputs
    induction inputs generalizing s with
    | nil =>
      intro ok buf h
      unfold runLoop at h
      cases h
    | cons inp rest ih =>
      intro ok buf h
      by_cases hstop : inp.stopSet = true
      · unfold runLoop
        rw [if_pos hstop]
        simp
      · unfold runLoop at h ⊢
        rw [if_neg hstop] at h ⊢
        rcases hstep : step c inp s with ⟨res, log⟩
        rw [hstep] at h
        cases res with
        | errored sE => simp at h
        | continued sC =>
          have h2 : (runLoop c sC rest).1 = RunResult.stopped ok buf := h
          have hlog : ∀ call ∈ log, call.isFinal = false := by
            have hall := step_log_not_final c inp s
            rw [hstep] at hall
            exact hall
          show (List.filter (fun call => call.isFinal)
            (log ++ (runLoop c sC rest).2)).length = 1
          rw [List.filter_append]
          have hnil : log.filter (fun call => call.isFinal) = [] := by
            rw [List.filter_eq_nil_iff]
            intro call hc
            simp [hlog call hc]
          rw [hnil]
          rw [List.nil_append]
          exact ih sC ok buf h2

/-- C9, witness: stopping with one pending row and no failures performs the
single final flush of that row. -/
theorem c9_final_flush_witness :
    runLoop confB sPending [inpStop] =
      (RunResult.stopped (flush confB inpStop.flushFails sPending.rows).1
        (flush confB inpStop.flushFails sPending.rows).2,
       [⟨true, sPending.rows, sPending.now⟩]) :=
  c9_final_flush.1 confB sPending inpStop [] rfl

/-! ## Claim C10 -/

/-- The character-level field split never yields an empty field list. -/
theorem splitFields_ne_nil (sep : Char) (cs : List Char) :
    splitFields sep cs ≠ [] := by
  cases cs with
  | nil => simp [splitFields]
  | cons c rest =>
    unfold splitFields
    cases h : splitFields sep rest with
    | nil => simp
    | cons f fs => by_cases hc : c = sep <;> simp [hc]

/-- A non-blank line yields at least one field. -/
theorem csvRow_ne_nil (line : String) (h : line ≠ "") : csvRow line ≠ [] := by
  unfold csvRow
  rw [if_neg h]
  simp [splitFields_ne_nil]

/-- Folding the strip loop over well-formed entries succeeds and builds the
dict by left fold. -/
theorem stripRowAux_ok (ps : List (String × String)) :
    ∀ acc, stripRowAux acc (ps.map (fun p => (some p.1, some p.2))) =
      Except.ok (ps.foldl
        (fun a p => dictSet a (pyStrip p.1) (pyStrip p.2)) acc) := by
  induction ps with
  | nil => intro acc; rfl
  | cons p tl ih => intro acc; exact ih _

/-- The strip loop processes a well-formed prefix and continues with the
remaining entries. -/
theorem stripRowAux_block (ps : List (String × String)) :
    ∀ acc rest,
      stripRowAux acc (ps.map (fun p => (some p.1, some p.2)) ++ rest) =
        stripRowAux (ps.foldl
          (fun a p => dictSet a (pyStrip p.1) (pyStrip p.2)) acc) rest := by
  induction ps with
  | nil => intro acc rest; rfl
  | cons p tl ih => intro acc rest; exact ih _ rest

/-- A row with exactly as many fields as the header strips cleanly. -/
theorem stripRow_dictReaderRow_ok (header fields : List String)
    (hlen : fields.length = header.length) :
    stripRow (dictReaderRow header fields) =
      Except.ok (stripOkRow header fields) := by
  unfold stripRow dictReaderRow stripOkRow
  rw [List.drop_eq_nil_of_le (by omega)]
  rw [if_neg (by omega)]
  simp only [List.map_nil, List.append_nil]
  exact stripRowAux_ok (header.zip fields) []

/-- A row with a field count different from the header length makes the strip
loop raise. -/
theorem stripRow_dictReaderRow_err (header fields : List String)
    (hlen : fields.length ≠ header.length) :
    stripRow (dictReaderRow header fields) = Except.error () := by
  unfold stripRow dictReaderRow
  rcases Nat.lt_or_ge fields.length header.length with hlt | hge
  · rw [if_neg (by omega)]
    simp only [List.append_nil]
    rcases hd : header.drop fields.length with _ | ⟨a, tl⟩
    · exfalso
      have := List.drop_eq_nil_iff.mp hd
      omega
    · rw [List.map_cons]
      rw [stripRowAux_block]
      rfl
  · have hgt : header.length < fields.length := by omega
    rw [List.drop_eq_nil_of_le hge]
    rw [if_pos hgt]
    simp only [List.map_nil, List.append_nil, List.nil_append]
    rw [stripRowAux_block]
    rfl

/-- Unfolding step of the loader: a blank line yields no reader row and is
skipped. -/
theorem CSVLoader_call_blank (header : List String) (l : String)
    (rest : List String) (h : csvRow l = []) :
    CSVLoader_call header (l :: rest) = CSVLoader_call header rest := by
  show (match csvRow l with
    | [] => CSVLoader_call header rest
    | f :: fs => do
      let r ← stripRow (dictReaderRow header (f :: fs))
      let rs ← CSVLoader_call header rest
      pure (r :: rs)) = CSVLoader_call header rest
  rw [h]

/-- Unfolding step of the loader: a non-blank line is processed through the
reader-row strip loop before the remaining lines. -/
theorem CSVLoader_call_cons (header : List String) (l : String)
    (rest : List String) (f : String) (fs : List String)
    (h : csvRow l = f :: fs) :
    CSVLoader_call header (l :: rest) = (do
      let r ← stripRow (dictReaderRow header (f :: fs))
      let rs ← CSVLoader_call header rest
      pure (r :: rs)) := by
  show (match csvRow l with
    | [] => CSVLoader_call header rest
    | f :: fs => do
      let r ← stripRow (dictReaderRow header (f :: fs))
      let rs ← CSVLoader_call header rest
      pure (r :: rs)) = _
  rw [h]

/-- C10, counterexample: with explicit header `["a","b"]` (k = 2), an input
containing a blank line — a line with 0 delimited fields, different from k —
does not raise: `csv.DictReader` silently skips blank rows, and the call
returns the trimmed records of the other lines. -/
theorem c10_counterexample :
    CSVLoader_call ["a", "b"] ["1,2", "", "3,4"] =
      Except.ok [[("a", "1"), ("b", "2")], [("a", "3"), ("b", "4")]] ∧
    ("" : String) ∈ ["1,2", "", "3,4"] ∧ (csvRow "").length ≠ 2 := by decide

/-- C10, amended: blank lines are skipped silently; the call raises exactly
when some non-blank line has a field count different from the header length
(a missing field yields a `None` value and a surplus field a `None` key, and
stripping `None` fails); when every non-blank line has exactly as many fields
as the header, the call returns the whitespace-trimmed key/value records of
the non-blank lines. -/
theorem c10_amended (header : List String) (lines : List String) :
    ((∃ l ∈ lines, l ≠ "" ∧ (csvRow l).length ≠ header.length) →
      CSVLoader_call header lines = Except.error ()) ∧
    ((∀ l ∈ lines, l ≠ "" → (csvRow l).length = header.length) →
      CSVLoader_call header lines =
        Except.ok ((lines.filter (fun l => l ≠ "")).map
          (fun l => stripOkRow header (csvRow l)))) := by
  induction lines with
  | nil =>
    constructor
    · rintro ⟨l, hl, _⟩
      cases hl
    · intro h
      rfl
  | cons l rest ih =>
    constructor
    · rintro ⟨m, hm, hmne, hmlen⟩
      by_cases hl : l = ""
      · subst hl
        have hm2 : m ∈ rest := by
          rcases List.mem_cons.mp hm with rfl | hm2
          · exact absurd rfl hmne
          · exact hm2
        rw [CSVLoader_call_blank header "" rest rfl]
        exact ih.1 ⟨m, hm2, hmne, hmlen⟩
      · rcases hcr : csvRow l with _ | ⟨f, fs⟩
        · exact absurd hcr (csvRow_ne_nil l hl)
        · rw [CSVLoader_call_cons header l rest f fs hcr]
          rcases hsr : stripRow (dictReaderRow header (f :: fs)) with e | r
          · rfl
          · rcases List.mem_cons.mp hm with rfl | hm2
            · have herr : stripRow (dictReaderRow header (f :: fs)) =
                  Except.error () :=
                stripRow_dictReaderRow_err header (f :: fs)
                  (by rw [← hcr]; exact hmlen)
              rw [herr] at hsr
              cases hsr
            · rw [ih.1 ⟨m, hm2, hmne, hmlen⟩]
              rfl
    · intro hall
      by_cases hl : l = ""
      · subst hl
        rw [CSVLoader_call_blank header "" rest rfl]
        have hfilter : (("" : String) :: rest).filter (fun m => m ≠ "") =
            rest.filter (fun m => m ≠ "") := by simp
        rw [hfilter]
        exact ih.2 (fun m hm hmne => hall m (List.mem_cons.mpr (Or.inr hm)) hmne)
      · have hlen : (csvRow l).length = header.length :=
          hall l (List.mem_cons.mpr (Or.inl rfl)) hl
        rcases hcr : csvRow l with _ | ⟨f, fs⟩
        · exact absurd hcr (csvRow_ne_nil l hl)
        · rw [CSVLoader_call_cons header l rest f fs hcr]
          rw [stripRow_dictReaderRow_ok header (f :: fs)
            (by rw [← hcr]; exact hlen)]
          rw [ih.2 (fun m hm hmne => hall m (List.mem_cons.mpr (Or.inr hm)) hmne)]
          have hfilter : (l :: rest).filter (fun m => m ≠ "") =
              l :: rest.filter (fun m => m ≠ "") := by simp [hl]
          rw [hfilter, List.map_cons, hcr]
          rfl

/-- C10, witness: a surplus-field line raises, and a well-formed input with
whitespace around fields yields the trimmed records. -/
theorem c10_amended_witness :
    CSVLoader_call ["a", "b"] ["1,2,3"] = Except.error () ∧
    CSVLoader_call ["a", "b"] [" 1 ,2"] =
      Except.ok (([" 1 ,2"].filter (fun l => l ≠ "")).map
        (fun l => stripOkRow ["a", "b"] (csvRow l))) :=
  ⟨(c10_amended ["a", "b"] ["1,2,3"]).1 ⟨"1,2,3", by decide, by decide, by decide⟩,
   (c10_amended ["a", "b"] [" 1 ,2"]).2 (by decide)⟩

end Mq2db
